import Mathlib

/-!
Shallow embedding of the resumable windowed indicators engine
(`app/services/trade_service.py`, `app/services/indicators_service.py`,
`app/models/trades_summary.py`), together with theorems checking the
natural-language specification against it.

Modelling conventions:
* timestamps are integers (epoch seconds), so `timedelta(minutes=m)` is `60*m`;
* monetary and ratio columns are rationals;
* a Polars column over the trades of one account is a `List ℚ` (or `List ℤ`),
  in ascending `closed_at` order, and `cum_sum` / `cum_max` become explicit
  accumulator recursions.
-/

namespace Spec2Proof

/-- A row of `trades_db.csv` as consumed by the engine (the columns the
claims need: identification, the two timestamps, and the monetary fields
`profit`, `swap`, `commission`). -/
structure Trade where
  identifier : ℤ
  opened_at : ℤ
  closed_at : ℤ
  profit : ℚ
  swap : ℚ
  commission : ℚ
deriving Repr, DecidableEq

/-- Constant `INITIAL_EQUITY` from `trade_service.py`. -/
def INITIAL_EQUITY : ℚ := 100000

/-- Running sums: the embedding of a Polars `cum_sum()` column. -/
def cumsumAux (acc : ℚ) : List ℚ → List ℚ
  | [] => []
  | x :: xs => (acc + x) :: cumsumAux (acc + x) xs

/-- Embedding of `col(c).cum_sum()`. -/
def cumsum (xs : List ℚ) : List ℚ := cumsumAux 0 xs

/-- Running maxima continuing from an already-seen maximum `m`. -/
def cummaxAux (m : ℚ) : List ℚ → List ℚ
  | [] => []
  | x :: xs => max m x :: cummaxAux (max m x) xs

/-- Embedding of `col(c).cum_max()`: the first row is its own maximum. -/
def cummax : List ℚ → List ℚ
  | [] => []
  | x :: xs => x :: cummaxAux x xs

/-- The `equity` column of `create_rolling_window_lazy_frame`
(`trade_service.py` lines 144-147):
`lit(INITIAL_EQUITY) + profit.cum_sum() + swap.cum_sum() + commission.cum_sum()`,
with the seed generalised to `base` (the code always passes `INITIAL_EQUITY`). -/
def equityCol (base : ℚ) (ts : List Trade) : List ℚ :=
  List.zipWith (fun x y => x + y)
    (List.zipWith (fun x y => base + x + y)
      (cumsum (ts.map Trade.profit))
      (cumsum (ts.map Trade.swap)))
    (cumsum (ts.map Trade.commission))

/-- The `peak` column (`trade_service.py` lines 149-152):
`col("equity").cum_max()` — note: no seeding with any base peak. -/
def peakCol (base : ℚ) (ts : List Trade) : List ℚ :=
  cummax (equityCol base ts)

/-- The `relative_drawdown` column (`trade_service.py` lines 154-157):
`(equity - peak) / peak`. -/
def drawdownCol (base : ℚ) (ts : List Trade) : List ℚ :=
  List.zipWith (fun e p => (e - p) / p) (equityCol base ts) (peakCol base ts)

/-- The per-trade equity delta: `profit + swap + commission`. -/
def tradeDelta (t : Trade) : ℚ := t.profit + t.swap + t.commission

/-- The peak column as the specification words it: running maximum of equity
clamped from below by the seed `basePeak`
(`peak_i = max(base_peak, max over j <= i of equity_j)`).  Stated from the
spec only, to compare against `peakCol`. -/
def specPeakCol (base basePeak : ℚ) (ts : List Trade) : List ℚ :=
  cummaxAux basePeak (equityCol base ts)

/-- One row of the `trades_summary` table
(`app/models/trades_summary.py`, class `TradesSummaryRecord`); the Python
fields `_lower_boundary` / `_upper_boundary` are embedded without the
leading underscore. -/
structure SummaryRecord where
  lower_boundary : ℤ
  upper_boundary : ℤ
  trading_account_login : ℤ
  closed_at : ℤ
  hft : ℤ
  win_ratio : ℚ
  profit_factor : ℚ
  sl_percent : ℚ
  layered_trade_count : ℤ
  last_trade_at : ℤ
  last_equity : ℚ
  last_peak : ℚ
  max_relative_drawdown : ℚ
deriving Repr, DecidableEq

/-- The three strategy strings of `determine_analysis_strategy`. -/
inductive Strategy where
  | skip
  | from_scratch
  | resume
deriving Repr, DecidableEq

/-- The dictionary returned by `determine_analysis_strategy`
(`indicators_service.py` lines 176-272); keys absent from a given branch
become `none`. -/
structure StrategyDecision where
  strategy : Strategy
  reason : String
  last_record : Option SummaryRecord
  last_trade_timestamp : Option ℤ
  needs_update : Bool
  period_seconds : Option ℤ
  use_batch_strategy : Option Bool
deriving Repr, DecidableEq

/-- Constant `ANALYSIS_UPTODATE_THRESHOLD_MINUTES` (`indicators_service.py` line 33). -/
def ANALYSIS_UPTODATE_THRESHOLD_MINUTES : ℤ := 1

/-- Method `IndicatorsService.is_analysis_uptodate` (`indicators_service.py` lines
100-124): `None` latest trade counts as up to date, otherwise the analysis
is up to date iff `latest - last <= timedelta(minutes=threshold)`
(timestamps in seconds, so the threshold is `60 * threshold_minutes`). -/
def is_analysis_uptodate (last_record_timestamp : ℤ)
    (latest_trade_timestamp : Option ℤ) (threshold_minutes : ℤ) : Bool :=
  match latest_trade_timestamp with
  | none => true
  | some latest =>
    decide (latest - last_record_timestamp ≤ 60 * threshold_minutes)

/-- Method `IndicatorsService.determine_analysis_strategy` (`indicators_service.py`
lines 176-272), as a function of its three data inputs: the last persisted
summary record, the most recent trade timestamp, and the trade
count of the account.  The dynamic parts of the Python reason strings (interpolated
timestamps) are dropped; the static texts are kept. -/
def determine_analysis_strategy (last_record : Option SummaryRecord)
    (latest_trade_timestamp : Option ℤ) (record_count : ℕ) : StrategyDecision :=
  let use_batch := decide (1000 ≤ record_count)
  match last_record with
  | none =>
    match latest_trade_timestamp with
    | none =>
      { strategy := Strategy.skip,
        reason := "No trades found for this account",
        last_record := none, last_trade_timestamp := none,
        needs_update := false, period_seconds := none,
        use_batch_strategy := none }
    | some t =>
      { strategy := Strategy.from_scratch,
        reason := "No previous analysis found, starting fresh analysis",
        last_record := none, last_trade_timestamp := some t,
        needs_update := true, period_seconds := none,
        use_batch_strategy := some use_batch }
  | some r =>
    match latest_trade_timestamp with
    | none =>
      { strategy := Strategy.skip,
        reason := "Analysis exists but no trades found (data inconsistency)",
        last_record := some r, last_trade_timestamp := none,
        needs_update := false, period_seconds := none,
        use_batch_strategy := none }
    | some t =>
      let time_difference := r.upper_boundary - r.lower_boundary
      if is_analysis_uptodate r.closed_at (some t)
          ANALYSIS_UPTODATE_THRESHOLD_MINUTES then
        { strategy := Strategy.skip,
          reason := "Analysis is up-to-date",
          last_record := some r, last_trade_timestamp := some t,
          needs_update := false, period_seconds := none,
          use_batch_strategy := none }
      else
        { strategy := Strategy.resume,
          reason := "Analysis outdated, resuming from last record",
          last_record := some r, last_trade_timestamp := some t,
          needs_update := true, period_seconds := some time_difference,
          use_batch_strategy := some use_batch }

/-- Modelled from the spec: the resume-capable trade filtering of the
windowed aggregator.  The committed `trade_service.py` version of
`create_rolling_window_lazy_frame` accepts no resume parameters, although
`_process_resume` (`indicators_service.py` lines 340-347) calls it with
`resume_from_datetime` and `period_seconds`; the Trade Source
contract of the spec says: when `resumeFrom` is given, only trades with
`closed-at >= resumeFrom + period` are included. -/
def tradesForWindowing (trades : List Trade) (resume_from : ℤ)
    (period_seconds : ℤ) : List Trade :=
  trades.filter (fun t => decide (resume_from + period_seconds ≤ t.closed_at))

/-- The resume invocation built by `_process_resume` (`indicators_service.py`
lines 331-362): the trade stream it buckets (spec-modelled filtering, see
`tradesForWindowing`) together with the seeds it passes, namely
`resume_from_equity = last_record.last_equity`,
`resume_from_peak = last_record.last_peak` and
`resume_from_datetime = last_record.closed_at`. -/
def processResume (trades : List Trade) (r : SummaryRecord)
    (period_seconds : ℤ) : List Trade × ℚ × ℚ :=
  (tradesForWindowing trades r.closed_at period_seconds,
    r.last_equity, r.last_peak)

/-- The resume seeds `_process_resume` reads from the record carried in the
strategy dictionary (`indicators_service.py` lines 344-346):
`(last_equity, last_peak, closed_at)` of `strategy_info["last_record"]`. -/
def resume_seeds (d : StrategyDecision) : Option (ℚ × ℚ × ℤ) :=
  d.last_record.map (fun r => (r.last_equity, r.last_peak, r.closed_at))

/-- The account-list selection of `execute_bulk_analysis`
(`indicators_service.py` lines 421-424): when `account_logins` is `None`
the code takes `get_all_unique_logins()[:20]` — only the first 20 logins. -/
def bulk_select_accounts (account_logins : Option (List ℤ))
    (all_logins : List ℤ) : List ℤ :=
  match account_logins with
  | none => all_logins.take 20
  | some l => l

/-- Term `gross_profit` of `get_profit_factor_filters` (`indicators_service.py`
line 523): sum of `profit` over trades with positive profit. -/
def gross_profit (ts : List Trade) : ℚ :=
  (ts.map (fun t => if 0 < t.profit then t.profit else 0)).sum

/-- Term `gross_loss` of `get_profit_factor_filters` (`indicators_service.py`
line 524): sum of `|profit|` over trades with negative profit. -/
def gross_loss (ts : List Trade) : ℚ :=
  (ts.map (fun t => if t.profit < 0 then |t.profit| else 0)).sum

/-- The `profit_factor` expression (`indicators_service.py` lines 526-533):
0 when `gross_profit = 0`, 0 when `gross_loss = 0` (instead of infinity),
otherwise `gross_profit / gross_loss`. -/
def profit_factor (ts : List Trade) : ℚ :=
  if gross_profit ts = 0 then 0
  else if gross_loss ts = 0 then 0
  else gross_profit ts / gross_loss ts

/-- Rounding to five decimal places, the `.round(5)` step applied by
`get_max_relative_drawdown_filter`: rounding
to five decimal places. -/
def round5 (x : ℚ) : ℚ := (round (x * 100000) : ℤ) / 100000

/-- Aggregation `col("equity").last()` over a bucket (`indicators_service.py` line 541). -/
def agg_last_equity (equity : List ℚ) : Option ℚ := equity.getLast?

/-- Aggregation `col("global_peak").last()` over a bucket (`indicators_service.py`
line 542). -/
def agg_last_peak (peak : List ℚ) : Option ℚ := peak.getLast?

/-- Aggregation `min()` of a column over a bucket. -/
def listMin : List ℚ → Option ℚ
  | [] => none
  | x :: xs => some (xs.foldl min x)

/-- Aggregation `col("global_drawdown").min().abs().round(5) * 100`
(`indicators_service.py` line 543): the persisted-schema
`max_relative_drawdown` for one bucket. -/
def agg_max_relative_drawdown (drawdown : List ℚ) : Option ℚ :=
  (listMin drawdown).map (fun m => round5 |m| * 100)

/-- The formula the claim states for `max_relative_drawdown`, from the
words of the spec for comparison: absolute value of the minimum per-trade relative
drawdown times 100, with no rounding step. -/
def spec_max_relative_drawdown (drawdown : List ℚ) : Option ℚ :=
  (listMin drawdown).map (fun m => |m| * 100)

/-- The outcome of the `process_account_by_strategy` call of one account as seen
by the `execute_bulk_analysis` result loop: either the strategy-info
dictionary, or the exception message re-raised by `future.result()`. -/
inductive AccountOutcome where
  | ok (s : StrategyDecision)
  | err (msg : String)
deriving Repr, DecidableEq

/-- The counters and error list of `execute_bulk_analysis`
(`indicators_service.py` lines 428-432). -/
structure BulkStats where
  processed : ℕ
  skipped : ℕ
  failed : ℕ
  errors : List String
deriving Repr, DecidableEq

/-- One iteration of the `as_completed` result loop
(`indicators_service.py` lines 443-461): an exception increments `failed`
and appends `"Account <login> failed: <msg>"`; a `skip` decision increments
`skipped`; any other completed decision increments `processed`. -/
def bulk_step (st : BulkStats) (login : ℤ) (o : AccountOutcome) : BulkStats :=
  match o with
  | AccountOutcome.ok s =>
    match s.strategy with
    | Strategy.skip => { st with skipped := st.skipped + 1 }
    | _ => { st with processed := st.processed + 1 }
  | AccountOutcome.err m =>
    { st with
      failed := st.failed + 1
      errors := st.errors ++ ["Account " ++ toString login ++ " failed: " ++ m] }

/-- The whole result loop of `execute_bulk_analysis`, folded over the
per-account outcomes in whatever order `as_completed` yields them. -/
def execute_bulk_analysis_fold (outcomes : List (ℤ × AccountOutcome)) :
    BulkStats :=
  outcomes.foldl (fun st p => bulk_step st p.1 p.2) ⟨0, 0, 0, []⟩

/-- Outcome classifiers for the bulk-run statistics. -/
def isErrOutcome : AccountOutcome → Bool
  | AccountOutcome.err _ => true
  | AccountOutcome.ok _ => false

def isSkipOutcome : AccountOutcome → Bool
  | AccountOutcome.ok s => decide (s.strategy = Strategy.skip)
  | AccountOutcome.err _ => false

def isProcessedOutcome : AccountOutcome → Bool
  | AccountOutcome.ok s => decide (s.strategy ≠ Strategy.skip)
  | AccountOutcome.err _ => false

/-- The error messages one outcome contributes to the `errors` list:
exactly one formatted message for an exception, none otherwise. -/
def outcomeErrMsg (login : ℤ) : AccountOutcome → List String
  | AccountOutcome.err m => ["Account " ++ toString login ++ " failed: " ++ m]
  | AccountOutcome.ok _ => []

/-- The compound primary key of `trades_summary`
(`app/models/trades_summary.py` line 46): `(trading_account_login, closed_at)`. -/
def recordKey (r : SummaryRecord) : ℤ × ℤ := (r.trading_account_login, r.closed_at)

/-- The distinguished duplicate-key message of `_insert_records_sync`
(`indicators_service.py` lines 152-156). -/
def DUPLICATE_KEY_MESSAGE : String :=
  "Duplicate record detected - this indicates a bug in resumable computation logic."

/-- The result of `_insert_records_sync`: a count on success, or the
distinguished duplicate-key error. -/
inductive InsertResult where
  | ok (count : ℕ)
  | duplicate_key_error (message : String)
deriving Repr, DecidableEq

/-- Method `IndicatorsService._insert_records_sync` (`indicators_service.py` lines
126-161) acting on the persisted table, with the session commit modelled by
the UNIQUE primary-key constraint of the table: an empty batch returns 0 without
touching the table; `add_all` + `commit` appends the whole batch atomically
when the resulting table has no duplicate `(login, closed_at)` keys;
otherwise `commit` fails, `rollback` leaves the table unchanged, and the
distinguished duplicate-key error is raised (never retried). -/
def insert_records_sync (table records : List SummaryRecord) :
    InsertResult × List SummaryRecord :=
  if records.isEmpty then (InsertResult.ok 0, table)
  else if ((table ++ records).map recordKey).Nodup then
    (InsertResult.ok records.length, table ++ records)
  else (InsertResult.duplicate_key_error DUPLICATE_KEY_MESSAGE, table)

/-- The lower-boundary label that Polars `group_by_dynamic` (`every="1m"`,
`closed="left"`) assigns to the one-minute bucket containing second `t`:
the window start `t - t % 60`.  The `closed_at` key of an emitted summary
record is this label of its bucket. -/
def window_start (t : ℤ) : ℤ := t - t % 60

/-- Modelled from the spec: `latestTradeTimestamp(login)` of the Trade
Source contract (the committed `TradeService` has no
`get_most_recent_trade_timestamp`; per the spec it is the timestamp of the
most recent trade of the account, `none` when no trades exist). -/
def latestTradeTimestamp : List Trade → Option ℤ
  | [] => none
  | t :: ts => some ((ts.map Trade.closed_at).foldl max t.closed_at)

section ColumnLemmas

theorem cumsumAux_length (acc : ℚ) (xs : List ℚ) :
    (cumsumAux acc xs).length = xs.length := by
  induction xs generalizing acc with
  | nil => rfl
  | cons x xs ih => simp [cumsumAux, ih]

theorem cumsum_length (xs : List ℚ) : (cumsum xs).length = xs.length :=
  cumsumAux_length 0 xs

theorem cummaxAux_length (m : ℚ) (xs : List ℚ) :
    (cummaxAux m xs).length = xs.length := by
  induction xs generalizing m with
  | nil => rfl
  | cons x xs ih => simp [cummaxAux, ih]

theorem cummax_length (xs : List ℚ) : (cummax xs).length = xs.length := by
  cases xs with
  | nil => rfl
  | cons x xs => simp [cummax, cummaxAux_length]

theorem equityCol_length (base : ℚ) (ts : List Trade) :
    (equityCol base ts).length = ts.length := by
  simp [equityCol, cumsum_length]

theorem peakCol_length (base : ℚ) (ts : List Trade) :
    (peakCol base ts).length = ts.length := by
  simp [peakCol, cummax_length, equityCol_length]

theorem drawdownCol_length (base : ℚ) (ts : List Trade) :
    (drawdownCol base ts).length = ts.length := by
  simp [drawdownCol, equityCol_length, peakCol_length]

/-- Evaluating a running sum at index `i`: seed plus the sum of the first
`i+1` entries. -/
theorem cumsumAux_getD (acc : ℚ) (xs : List ℚ) (i : ℕ) (hi : i < xs.length) :
    (cumsumAux acc xs).getD i 0 = acc + ((xs.take (i + 1)).sum) := by
  induction xs generalizing acc i with
  | nil => simp at hi
  | cons x xs ih =>
    cases i with
    | zero => simp [cumsumAux]
    | succ n =>
      simp only [List.length_cons, Nat.succ_lt_succ_iff] at hi
      have h2 := ih (acc + x) n hi
      simp only [List.getD_eq_getElem?_getD] at h2 ⊢
      simp [cumsumAux, h2, add_assoc]

theorem cumsum_getD (xs : List ℚ) (i : ℕ) (hi : i < xs.length) :
    (cumsum xs).getD i 0 = (xs.take (i + 1)).sum := by
  simpa [cumsum] using cumsumAux_getD 0 xs i hi

/-- Evaluating a running maximum at index `i`: fold of `max` over the first
`i+1` entries, starting from the seed. -/
theorem cummaxAux_getD (m : ℚ) (xs : List ℚ) (i : ℕ) (hi : i < xs.length) :
    (cummaxAux m xs).getD i 0 = (xs.take (i + 1)).foldl max m := by
  induction xs generalizing m i with
  | nil => simp at hi
  | cons x xs ih =>
    cases i with
    | zero => simp [cummaxAux]
    | succ n =>
      simp only [List.length_cons, Nat.succ_lt_succ_iff] at hi
      have h2 := ih (max m x) n hi
      simp only [List.getD_eq_getElem?_getD] at h2 ⊢
      simp [cummaxAux, h2]

theorem le_foldl_max (m : ℚ) (xs : List ℚ) : m ≤ xs.foldl max m := by
  induction xs generalizing m with
  | nil => simp
  | cons x xs ih =>
    exact le_trans (le_max_left m x) (by simpa using ih (max m x))

theorem mem_le_foldl_max (m : ℚ) (xs : List ℚ) (x : ℚ) (hx : x ∈ xs) :
    x ≤ xs.foldl max m := by
  induction xs generalizing m with
  | nil => simp at hx
  | cons y ys ih =>
    rcases List.mem_cons.mp hx with h | h
    · subst h
      exact le_trans (le_max_right m x) (le_foldl_max _ ys)
    · exact ih (max m y) h

theorem foldl_max_take_mono (m : ℚ) (xs : List ℚ) (i j : ℕ) (hij : i ≤ j) :
    (xs.take (i + 1)).foldl max m ≤ (xs.take (j + 1)).foldl max m := by
  have h1 : List.take (i + 1) (List.take (j + 1) xs) = List.take (i + 1) xs := by
    rw [List.take_take]
    congr 1
    omega
  conv_rhs => rw [← List.take_append_drop (i + 1) (xs.take (j + 1))]
  rw [h1, List.foldl_append]
  exact le_foldl_max _ _

theorem getElem_mem_take (xs : List ℚ) (i : ℕ) (hi : i < xs.length) :
    xs[i] ∈ xs.take (i + 1) := by
  induction xs generalizing i with
  | nil => simp at hi
  | cons x xs ih =>
    cases i with
    | zero => simp
    | succ n =>
      simp only [List.length_cons, Nat.succ_lt_succ_iff] at hi
      simpa using Or.inr (ih n hi)

theorem cummax_getD (xs : List ℚ) (i : ℕ) (hi : i < xs.length) :
    (cummax xs).getD i 0 = (xs.take (i + 1)).foldl max (xs.getD 0 0) := by
  cases xs with
  | nil => simp at hi
  | cons x xs =>
    cases i with
    | zero => simp [cummax]
    | succ n =>
      simp only [List.length_cons, Nat.succ_lt_succ_iff] at hi
      have h2 := cummaxAux_getD x xs n hi
      simp only [List.getD_eq_getElem?_getD] at h2 ⊢
      simp [cummax, h2, List.take_succ_cons, max_self]

/-- The `peak` column is monotonically non-decreasing. -/
theorem peakCol_mono (base : ℚ) (ts : List Trade) (i j : ℕ) (hij : i ≤ j)
    (hj : j < ts.length) :
    (peakCol base ts).getD i 0 ≤ (peakCol base ts).getD j 0 := by
  have hi : i < ts.length := lt_of_le_of_lt hij hj
  have hi' : i < (equityCol base ts).length := by rwa [equityCol_length]
  have hj' : j < (equityCol base ts).length := by rwa [equityCol_length]
  rw [peakCol, cummax_getD _ i hi', cummax_getD _ j hj']
  exact foldl_max_take_mono _ _ i j hij

/-- Each equity value is bounded by the corresponding peak value. -/
theorem equity_le_peak (base : ℚ) (ts : List Trade) (i : ℕ)
    (hi : i < ts.length) :
    (equityCol base ts).getD i 0 ≤ (peakCol base ts).getD i 0 := by
  have hi' : i < (equityCol base ts).length := by rwa [equityCol_length]
  rw [peakCol, cummax_getD _ i hi']
  apply mem_le_foldl_max
  rw [List.getD_eq_getElem _ _ hi']
  exact getElem_mem_take _ i hi'

theorem sum_map_tradeDelta (l : List Trade) :
    (l.map tradeDelta).sum =
      (l.map Trade.profit).sum + (l.map Trade.swap).sum +
        (l.map Trade.commission).sum := by
  induction l with
  | nil => simp
  | cons t ts ih => simp [tradeDelta, ih]; ring

/-- The `equity` column at index `i` equals the base equity plus the sum of
`profit + swap + commission` over the first `i+1` trades. -/
theorem equityCol_getD (base : ℚ) (ts : List Trade) (i : ℕ)
    (hi : i < ts.length) :
    (equityCol base ts).getD i 0 = base + ((ts.take (i + 1)).map tradeDelta).sum := by
  have hp : i < (ts.map Trade.profit).length := by simpa using hi
  have hs : i < (ts.map Trade.swap).length := by simpa using hi
  have hc : i < (ts.map Trade.commission).length := by simpa using hi
  have hcp : i < (cumsum (ts.map Trade.profit)).length := by
    rwa [cumsum_length]
  have hcs : i < (cumsum (ts.map Trade.swap)).length := by
    rwa [cumsum_length]
  have hcc : i < (cumsum (ts.map Trade.commission)).length := by
    rwa [cumsum_length]
  have hz1 : i < (List.zipWith (fun x y => base + x + y)
      (cumsum (ts.map Trade.profit)) (cumsum (ts.map Trade.swap))).length := by
    rw [List.length_zipWith]
    omega
  have hall : i < (equityCol base ts).length := by rwa [equityCol_length]
  rw [List.getD_eq_getElem _ _ hall]
  unfold equityCol
  rw [List.getElem_zipWith, List.getElem_zipWith]
  have e1 : (cumsum (ts.map Trade.profit))[i] =
      ((ts.take (i + 1)).map Trade.profit).sum := by
    rw [← List.getD_eq_getElem _ 0 hcp, cumsum_getD _ i hp, List.map_take]
  have e2 : (cumsum (ts.map Trade.swap))[i] =
      ((ts.take (i + 1)).map Trade.swap).sum := by
    rw [← List.getD_eq_getElem _ 0 hcs, cumsum_getD _ i hs, List.map_take]
  have e3 : (cumsum (ts.map Trade.commission))[i] =
      ((ts.take (i + 1)).map Trade.commission).sum := by
    rw [← List.getD_eq_getElem _ 0 hcc, cumsum_getD _ i hc, List.map_take]
  rw [e1, e2, e3, sum_map_tradeDelta]
  ring

theorem drawdownCol_getD (base : ℚ) (ts : List Trade) (i : ℕ)
    (hi : i < ts.length) :
    (drawdownCol base ts).getD i 0 =
      ((equityCol base ts).getD i 0 - (peakCol base ts).getD i 0) /
        (peakCol base ts).getD i 0 := by
  have he : i < (equityCol base ts).length := by rwa [equityCol_length]
  have hp : i < (peakCol base ts).length := by rwa [peakCol_length]
  have hd : i < (drawdownCol base ts).length := by rwa [drawdownCol_length]
  rw [List.getD_eq_getElem _ _ hd, List.getD_eq_getElem _ _ he,
    List.getD_eq_getElem _ _ hp]
  unfold drawdownCol
  rw [List.getElem_zipWith]

end ColumnLemmas

/-- C1 (amended). For every seed equity and trade sequence, the running
columns of the aggregator satisfy: `equity_i = base_equity + sum over j <= i of
(profit_j + swap_j + commission_j)`; the peak column is monotonically
non-decreasing; and the per-trade relative drawdown `(equity_i - peak_i) /
peak_i` is `<= 0` at every index whose peak is positive.  (The peak is the
running maximum of the equity column only: it is not clamped from below by
a `base_peak` seed, so it can drop below the fresh seed of 100,000 — see
the counterexample.) -/
theorem C1_equity_peak_drawdown_amended (base : ℚ) (ts : List Trade)
    (i j : ℕ) (hij : i ≤ j) (hj : j < ts.length) :
    (equityCol base ts).getD i 0 =
        base + ((ts.take (i + 1)).map tradeDelta).sum ∧
      (peakCol base ts).getD i 0 ≤ (peakCol base ts).getD j 0 ∧
      (0 < (peakCol base ts).getD i 0 → (drawdownCol base ts).getD i 0 ≤ 0) := by
  have hi : i < ts.length := lt_of_le_of_lt hij hj
  refine ⟨equityCol_getD base ts i hi, peakCol_mono base ts i j hij hj, ?_⟩
  intro hpos
  rw [drawdownCol_getD base ts i hi]
  exact div_nonpos_iff.mpr
    (Or.inr ⟨sub_nonpos.mpr (equity_le_peak base ts i hi), le_of_lt hpos⟩)

/-- C1 (counterexample). A fresh run (`base_equity = base_peak = 100000`)
whose only trade loses 100: the peak column of the code (`equity.cum_max()`,
`trade_service.py` line 151) gives `99900`, not
`max(base_peak, equity_0) = 100000` as the claim states, so the peak drops
below the seed `base_peak`. -/
theorem C1_counterexample :
    peakCol INITIAL_EQUITY [⟨1, 0, 10, -100, 0, 0⟩] ≠
        specPeakCol INITIAL_EQUITY INITIAL_EQUITY [⟨1, 0, 10, -100, 0, 0⟩] ∧
      (peakCol INITIAL_EQUITY [⟨1, 0, 10, -100, 0, 0⟩]).getD 0 0 <
        INITIAL_EQUITY := by
  constructor
  · norm_num [peakCol, specPeakCol, equityCol, cumsum, cumsumAux, cummax,
      cummaxAux, INITIAL_EQUITY]
  · norm_num [peakCol, equityCol, cumsum, cumsumAux, cummax, cummaxAux,
      INITIAL_EQUITY]

/-- C1 (witness): the amended theorem applied to a concrete two-trade run. -/
theorem C1_equity_peak_drawdown_amended_witness :
    ((0 : ℕ) ≤ 1 ∧ (1 : ℕ) <
        ([⟨1, 0, 10, 200, 0, 0⟩, ⟨2, 0, 20, -100, 0, 0⟩] : List Trade).length) ∧
      ((equityCol 100000 [⟨1, 0, 10, 200, 0, 0⟩, ⟨2, 0, 20, -100, 0, 0⟩]).getD 0 0 =
          100000 + ((([⟨1, 0, 10, 200, 0, 0⟩, ⟨2, 0, 20, -100, 0, 0⟩] : List Trade).take 1).map
            tradeDelta).sum ∧
        (peakCol 100000 [⟨1, 0, 10, 200, 0, 0⟩, ⟨2, 0, 20, -100, 0, 0⟩]).getD 0 0 ≤
          (peakCol 100000 [⟨1, 0, 10, 200, 0, 0⟩, ⟨2, 0, 20, -100, 0, 0⟩]).getD 1 0 ∧
        (0 < (peakCol 100000 [⟨1, 0, 10, 200, 0, 0⟩, ⟨2, 0, 20, -100, 0, 0⟩]).getD 0 0 →
          (drawdownCol 100000 [⟨1, 0, 10, 200, 0, 0⟩, ⟨2, 0, 20, -100, 0, 0⟩]).getD 0 0 ≤ 0)) :=
  ⟨⟨by decide, by simp⟩,
    C1_equity_peak_drawdown_amended 100000
      [⟨1, 0, 10, 200, 0, 0⟩, ⟨2, 0, 20, -100, 0, 0⟩] 0 1 (by decide) (by simp)⟩

theorem gross_profit_nonneg (ts : List Trade) : 0 ≤ gross_profit ts := by
  apply List.sum_nonneg
  intro x hx
  simp only [List.mem_map] at hx
  obtain ⟨t, _, rfl⟩ := hx
  by_cases h : 0 < t.profit
  · simp [h, le_of_lt h]
  · simp [h]

theorem gross_loss_nonneg (ts : List Trade) : 0 ≤ gross_loss ts := by
  apply List.sum_nonneg
  intro x hx
  simp only [List.mem_map] at hx
  obtain ⟨t, _, rfl⟩ := hx
  by_cases h : t.profit < 0
  · simp [h, abs_nonneg]
  · simp [h]

/-- C8. The profit factor is always non-negative, and it vanishes exactly
when the gross profit or the gross loss of the bucket vanishes (in
particular it is never infinity when there are no losing trades). -/
theorem C8_profit_factor_sign (ts : List Trade) :
    0 ≤ profit_factor ts ∧
      (profit_factor ts = 0 ↔ gross_profit ts = 0 ∨ gross_loss ts = 0) := by
  unfold profit_factor
  by_cases h1 : gross_profit ts = 0
  · simp [h1]
  · by_cases h2 : gross_loss ts = 0
    · simp [h1, h2]
    · have hp : 0 < gross_profit ts :=
        lt_of_le_of_ne (gross_profit_nonneg ts) (Ne.symm h1)
      have hl : 0 < gross_loss ts :=
        lt_of_le_of_ne (gross_loss_nonneg ts) (Ne.symm h2)
      have hq : 0 < gross_profit ts / gross_loss ts := div_pos hp hl
      rw [if_neg h1, if_neg h2]
      refine ⟨le_of_lt hq, ?_, ?_⟩
      · intro h
        exact absurd h (ne_of_gt hq)
      · rintro (h | h) <;> contradiction

/-- C10. The freshness check returns `true` iff the latest trade timestamp
is absent or `latest - last` is at most the threshold; in particular a
latest trade strictly older than the last record (negative difference) and
a missing latest trade are both classified as up to date. -/
theorem C10_is_analysis_uptodate_characterization (last thr : ℤ)
    (latest : Option ℤ) :
    (is_analysis_uptodate last latest thr = true ↔
        latest = none ∨ ∃ t, latest = some t ∧ t - last ≤ 60 * thr) ∧
      (∀ t, t < last →
        is_analysis_uptodate last (some t)
          ANALYSIS_UPTODATE_THRESHOLD_MINUTES = true) ∧
      is_analysis_uptodate last none thr = true := by
  refine ⟨?_, ?_, rfl⟩
  · cases latest with
    | none => simp [is_analysis_uptodate]
    | some t => simp [is_analysis_uptodate]
  · intro t ht
    simp only [is_analysis_uptodate, ANALYSIS_UPTODATE_THRESHOLD_MINUTES,
      decide_eq_true_eq]
    omega

/-- C10 (witness): a latest trade 60 seconds older than the record is up to
date. -/
theorem C10_witness : is_analysis_uptodate 100 (some 40) 1 = true := by
  have h :=
    (C10_is_analysis_uptodate_characterization 100 1 (some 40)).2.1 40 (by decide)
  simpa [ANALYSIS_UPTODATE_THRESHOLD_MINUTES] using h

/-- C3. The strategy resolver follows the decision table: no record and no
trades yields Skip ("no trades found"); no record with trades yields
FromScratch; a record with no trades yields Skip (data inconsistency); a
record with `latest - closed_at <= 1 minute` yields Skip; a larger gap
yields Resume carrying `period_seconds = upper_boundary - lower_boundary`
and the last record, whose `last_equity` / `last_peak` / `closed_at` are
the resume seeds `_process_resume` passes on. -/
theorem C3_decision_table (r : SummaryRecord) (t : ℤ) (c : ℕ) :
    (determine_analysis_strategy none none c).strategy = Strategy.skip ∧
      (determine_analysis_strategy none none c).reason =
        "No trades found for this account" ∧
      (determine_analysis_strategy none (some t) c).strategy =
        Strategy.from_scratch ∧
      (determine_analysis_strategy (some r) none c).strategy = Strategy.skip ∧
      (t - r.closed_at ≤ 60 →
        (determine_analysis_strategy (some r) (some t) c).strategy =
            Strategy.skip ∧
          (determine_analysis_strategy (some r) (some t) c).needs_update =
            false) ∧
      (60 < t - r.closed_at →
        (determine_analysis_strategy (some r) (some t) c).strategy =
            Strategy.resume ∧
          (determine_analysis_strategy (some r) (some t) c).period_seconds =
            some (r.upper_boundary - r.lower_boundary) ∧
          resume_seeds (determine_analysis_strategy (some r) (some t) c) =
            some (r.last_equity, r.last_peak, r.closed_at)) := by
  refine ⟨rfl, rfl, rfl, rfl, ?_, ?_⟩
  · intro h
    have hup : is_analysis_uptodate r.closed_at (some t)
        ANALYSIS_UPTODATE_THRESHOLD_MINUTES = true := by
      simp only [is_analysis_uptodate, ANALYSIS_UPTODATE_THRESHOLD_MINUTES,
        decide_eq_true_eq]
      omega
    simp [determine_analysis_strategy, hup]
  · intro h
    have hup : is_analysis_uptodate r.closed_at (some t)
        ANALYSIS_UPTODATE_THRESHOLD_MINUTES = false := by
      simp only [is_analysis_uptodate, ANALYSIS_UPTODATE_THRESHOLD_MINUTES,
        decide_eq_false_iff_not]
      omega
    simp [determine_analysis_strategy, hup, resume_seeds]

/-- C3 (witness): the resolver applied to a concrete record and timestamps,
exercising the up-to-date branch hypothesis. -/
theorem C3_decision_table_witness :
    (determine_analysis_strategy none none 5).strategy = Strategy.skip ∧
      ((130 : ℤ) - (⟨0, 60, 42, 100, 0, 0, 0, 0, 0, 0, 100000, 100000, 0⟩ :
          SummaryRecord).closed_at ≤ 60 ∧
        (determine_analysis_strategy
          (some ⟨0, 60, 42, 100, 0, 0, 0, 0, 0, 0, 100000, 100000, 0⟩)
          (some 130) 5).strategy = Strategy.skip) :=
  ⟨(C3_decision_table ⟨0, 60, 42, 100, 0, 0, 0, 0, 0, 0, 100000, 100000, 0⟩
      130 5).1,
    by decide,
    ((C3_decision_table ⟨0, 60, 42, 100, 0, 0, 0, 0, 0, 0, 100000, 100000, 0⟩
      130 5).2.2.2.2.1 (by decide)).1⟩

/-- C2. Every trade in the stream that a resumed run buckets has
`closed_at >= resume_from + period_seconds` (no trade of an
already-summarized window is reprocessed), and the equity and peak seeds
of the resumed run are the `last_equity` and `last_peak` of the last record. -/
theorem C2_resume_skips_summarized_window (trades : List Trade)
    (r : SummaryRecord) (p : ℤ) :
    (∀ t ∈ (processResume trades r p).1, ¬ t.closed_at < r.closed_at + p) ∧
      (processResume trades r p).2.1 = r.last_equity ∧
      (processResume trades r p).2.2 = r.last_peak := by
  refine ⟨?_, rfl, rfl⟩
  intro t ht
  simp only [processResume, tradesForWindowing, List.mem_filter,
    decide_eq_true_eq] at ht
  exact not_lt.mpr ht.2

/-- C2 (witness): a concrete resumed run keeping a trade past the cutoff. -/
theorem C2_resume_skips_summarized_window_witness :
    (⟨1, 0, 200, 5, 0, 0⟩ : Trade) ∈
        (processResume [⟨1, 0, 50, 1, 0, 0⟩, ⟨1, 0, 200, 5, 0, 0⟩]
          ⟨0, 60, 42, 60, 0, 0, 0, 0, 0, 0, 100100, 100200, 0⟩ 60).1 ∧
      ¬ (⟨1, 0, 200, 5, 0, 0⟩ : Trade).closed_at <
        (⟨0, 60, 42, 60, 0, 0, 0, 0, 0, 0, 100100, 100200, 0⟩ :
          SummaryRecord).closed_at + 60 := by
  have hmem : (⟨1, 0, 200, 5, 0, 0⟩ : Trade) ∈
      (processResume [⟨1, 0, 50, 1, 0, 0⟩, ⟨1, 0, 200, 5, 0, 0⟩]
        ⟨0, 60, 42, 60, 0, 0, 0, 0, 0, 0, 100100, 100200, 0⟩ 60).1 := by
    simp only [processResume, tradesForWindowing, List.mem_filter,
      decide_eq_true_eq]
    refine ⟨by simp, by norm_num⟩
  exact ⟨hmem,
    (C2_resume_skips_summarized_window
      [⟨1, 0, 50, 1, 0, 0⟩, ⟨1, 0, 200, 5, 0, 0⟩]
      ⟨0, 60, 42, 60, 0, 0, 0, 0, 0, 0, 100100, 100200, 0⟩ 60).1
      ⟨1, 0, 200, 5, 0, 0⟩ hmem⟩

/-- C4 (code bug). With the account list omitted, `execute_bulk_analysis`
takes only the first 20 of the known logins: with 21 known logins, login 20
is known but never submitted, contradicting the required processing of the
entire account set. -/
theorem C4_truncation_code_bug :
    (bulk_select_accounts none ((List.range 21).map (fun n => (n : ℤ)))).length
        = 20 ∧
      ((List.range 21).map (fun n => (n : ℤ))).length = 21 ∧
      (20 : ℤ) ∈ (List.range 21).map (fun n => (n : ℤ)) ∧
      (20 : ℤ) ∉ bulk_select_accounts none
        ((List.range 21).map (fun n => (n : ℤ))) := by
  refine ⟨?_, ?_, ?_, ?_⟩ <;> decide

/-- C9. The resolver is idempotent after a completed run: if the last
persisted record has `closed_at` equal to the window label of the latest
trade of the account (which it is immediately after a successful FromScratch or Resume
run, with no new trade arriving), resolving again yields Skip. -/
theorem C9_resolver_idempotence (ts : List Trade) (r : SummaryRecord)
    (c : ℕ) (T : ℤ) (h1 : latestTradeTimestamp ts = some T)
    (h2 : r.closed_at = window_start T) :
    (determine_analysis_strategy (some r) (latestTradeTimestamp ts) c).strategy
        = Strategy.skip ∧
      (determine_analysis_strategy (some r) (latestTradeTimestamp ts)
        c).needs_update = false := by
  rw [h1]
  have hmod1 : 0 ≤ T % 60 := Int.emod_nonneg T (by norm_num)
  have hmod2 : T % 60 < 60 := Int.emod_lt_of_pos T (by norm_num)
  have hup : is_analysis_uptodate r.closed_at (some T)
      ANALYSIS_UPTODATE_THRESHOLD_MINUTES = true := by
    simp only [is_analysis_uptodate, ANALYSIS_UPTODATE_THRESHOLD_MINUTES,
      decide_eq_true_eq, h2, window_start]
    omega
  constructor <;> simp [determine_analysis_strategy, hup]

/-- C9 (witness): one trade closed at second 130, last record keyed at its
window start 120: the resolver skips. -/
theorem C9_resolver_idempotence_witness :
    latestTradeTimestamp [⟨1, 0, 130, 5, 0, 0⟩] = some 130 ∧
      (⟨120, 180, 42, 120, 0, 0, 0, 0, 0, 130, 100000, 100000, 0⟩ :
          SummaryRecord).closed_at = window_start 130 ∧
      (determine_analysis_strategy
        (some ⟨120, 180, 42, 120, 0, 0, 0, 0, 0, 130, 100000, 100000, 0⟩)
        (latestTradeTimestamp [⟨1, 0, 130, 5, 0, 0⟩]) 7).strategy =
        Strategy.skip :=
  ⟨rfl, by decide,
    (C9_resolver_idempotence [⟨1, 0, 130, 5, 0, 0⟩]
      ⟨120, 180, 42, 120, 0, 0, 0, 0, 0, 130, 100000, 100000, 0⟩ 7 130
      rfl (by decide)).1⟩

theorem bulk_step_processed (st : BulkStats) (l : ℤ) (o : AccountOutcome) :
    (bulk_step st l o).processed =
      st.processed + (if isProcessedOutcome o then 1 else 0) := by
  cases o with
  | ok d => cases hd : d.strategy <;> simp [bulk_step, isProcessedOutcome, hd]
  | err m => simp [bulk_step, isProcessedOutcome]

theorem bulk_step_skipped (st : BulkStats) (l : ℤ) (o : AccountOutcome) :
    (bulk_step st l o).skipped =
      st.skipped + (if isSkipOutcome o then 1 else 0) := by
  cases o with
  | ok d => cases hd : d.strategy <;> simp [bulk_step, isSkipOutcome, hd]
  | err m => simp [bulk_step, isSkipOutcome]

theorem bulk_step_failed (st : BulkStats) (l : ℤ) (o : AccountOutcome) :
    (bulk_step st l o).failed =
      st.failed + (if isErrOutcome o then 1 else 0) := by
  cases o with
  | ok d => cases hd : d.strategy <;> simp [bulk_step, isErrOutcome, hd]
  | err m => simp [bulk_step, isErrOutcome]

theorem bulk_step_errors (st : BulkStats) (l : ℤ) (o : AccountOutcome) :
    (bulk_step st l o).errors = st.errors ++ outcomeErrMsg l o := by
  cases o with
  | ok d => cases hd : d.strategy <;> simp [bulk_step, outcomeErrMsg, hd]
  | err m => simp [bulk_step, outcomeErrMsg]

theorem bulk_fold_general (outcomes : List (ℤ × AccountOutcome))
    (s : BulkStats) :
    (outcomes.foldl (fun st p => bulk_step st p.1 p.2) s).processed =
        s.processed + outcomes.countP (fun p => isProcessedOutcome p.2) ∧
      (outcomes.foldl (fun st p => bulk_step st p.1 p.2) s).skipped =
        s.skipped + outcomes.countP (fun p => isSkipOutcome p.2) ∧
      (outcomes.foldl (fun st p => bulk_step st p.1 p.2) s).failed =
        s.failed + outcomes.countP (fun p => isErrOutcome p.2) ∧
      (outcomes.foldl (fun st p => bulk_step st p.1 p.2) s).errors =
        s.errors ++ outcomes.flatMap (fun p => outcomeErrMsg p.1 p.2) := by
  induction outcomes generalizing s with
  | nil => simp
  | cons p ps ih =>
    obtain ⟨l, o⟩ := p
    have h := ih (bulk_step s l o)
    refine ⟨?_, ?_, ?_, ?_⟩
    · rw [List.foldl_cons, h.1, bulk_step_processed, List.countP_cons]
      by_cases ho : isProcessedOutcome o <;> simp [ho] <;> omega
    · rw [List.foldl_cons, h.2.1, bulk_step_skipped, List.countP_cons]
      by_cases ho : isSkipOutcome o <;> simp [ho] <;> omega
    · rw [List.foldl_cons, h.2.2.1, bulk_step_failed, List.countP_cons]
      by_cases ho : isErrOutcome o <;> simp [ho] <;> omega
    · rw [List.foldl_cons, h.2.2.2, bulk_step_errors]
      simp [List.flatMap_cons, List.append_assoc]

theorem outcome_partition (outcomes : List (ℤ × AccountOutcome)) :
    outcomes.countP (fun p => isProcessedOutcome p.2) +
        outcomes.countP (fun p => isSkipOutcome p.2) +
        outcomes.countP (fun p => isErrOutcome p.2) = outcomes.length := by
  induction outcomes with
  | nil => simp
  | cons p ps ih =>
    obtain ⟨l, o⟩ := p
    cases o with
    | ok d =>
      by_cases hd : d.strategy = Strategy.skip <;>
        simp [List.countP_cons, isProcessedOutcome, isSkipOutcome,
          isErrOutcome, hd] at ih ⊢ <;>
        omega
    | err m =>
      simp [List.countP_cons, isProcessedOutcome, isSkipOutcome,
        isErrOutcome] at ih ⊢
      omega

theorem flatMap_errs_length (outcomes : List (ℤ × AccountOutcome)) :
    (outcomes.flatMap (fun p => outcomeErrMsg p.1 p.2)).length =
      outcomes.countP (fun p => isErrOutcome p.2) := by
  induction outcomes with
  | nil => simp
  | cons p ps ih =>
    obtain ⟨l, o⟩ := p
    cases o with
    | ok d =>
      simp only [List.flatMap_cons, List.length_append, List.countP_cons,
        outcomeErrMsg, isErrOutcome, List.length_nil] at ih ⊢
      simp only [if_neg, Bool.false_eq_true, not_false_eq_true, if_false]
      omega
    | err m =>
      simp only [List.flatMap_cons, List.length_append, List.countP_cons,
        outcomeErrMsg, isErrOutcome, List.length_singleton] at ih ⊢
      simp only [if_pos]
      omega

theorem bulk_fold_init (outcomes : List (ℤ × AccountOutcome)) :
    (execute_bulk_analysis_fold outcomes).processed =
        outcomes.countP (fun p => isProcessedOutcome p.2) ∧
      (execute_bulk_analysis_fold outcomes).skipped =
        outcomes.countP (fun p => isSkipOutcome p.2) ∧
      (execute_bulk_analysis_fold outcomes).failed =
        outcomes.countP (fun p => isErrOutcome p.2) ∧
      (execute_bulk_analysis_fold outcomes).errors =
        outcomes.flatMap (fun p => outcomeErrMsg p.1 p.2) := by
  have h := bulk_fold_general outcomes ⟨0, 0, 0, []⟩
  simpa [execute_bulk_analysis_fold] using h

/-- C6. The bulk result loop, folded over the per-account outcomes in any
completion order: each exception contributes exactly one `failed` count and
exactly one formatted error message (and nothing aborts the fold, which is
total); Skip decisions count as `skipped`; completed non-Skip decisions
count as `processed`; and `processed + skipped + failed` equals the number
of accounts. -/
theorem C6_bulk_isolation (outcomes : List (ℤ × AccountOutcome)) :
    (execute_bulk_analysis_fold outcomes).processed =
        outcomes.countP (fun p => isProcessedOutcome p.2) ∧
      (execute_bulk_analysis_fold outcomes).skipped =
        outcomes.countP (fun p => isSkipOutcome p.2) ∧
      (execute_bulk_analysis_fold outcomes).failed =
        outcomes.countP (fun p => isErrOutcome p.2) ∧
      (execute_bulk_analysis_fold outcomes).errors =
        outcomes.flatMap (fun p => outcomeErrMsg p.1 p.2) ∧
      (execute_bulk_analysis_fold outcomes).errors.length =
        (execute_bulk_analysis_fold outcomes).failed ∧
      (execute_bulk_analysis_fold outcomes).processed +
          (execute_bulk_analysis_fold outcomes).skipped +
          (execute_bulk_analysis_fold outcomes).failed = outcomes.length := by
  obtain ⟨h1, h2, h3, h4⟩ := bulk_fold_init outcomes
  refine ⟨h1, h2, h3, h4, ?_, ?_⟩
  · rw [h4, h3, flatMap_errs_length]
  · rw [h1, h2, h3]
    exact outcome_partition outcomes

/-- C7. For a summary table whose keys are unique (the table invariant):
an empty batch returns 0 and leaves the table unchanged; a batch containing
a key already present in the table, or a key repeated within the batch,
raises the distinguished duplicate-key error with the table rolled back
unchanged; a conflict-free batch is appended whole and its size returned;
and in every case the table afterwards is either unchanged or the original
table with the entire batch appended (all records or none). -/
theorem C7_insert_batch_atomic (table records : List SummaryRecord)
    (htable : (table.map recordKey).Nodup) :
    (records = [] → insert_records_sync table records =
        (InsertResult.ok 0, table)) ∧
      (((∃ r ∈ records, ∃ s ∈ table, recordKey s = recordKey r) ∨
          ¬ (records.map recordKey).Nodup) →
        insert_records_sync table records =
          (InsertResult.duplicate_key_error DUPLICATE_KEY_MESSAGE, table)) ∧
      ((∀ r ∈ records, ∀ s ∈ table, recordKey s ≠ recordKey r) →
        (records.map recordKey).Nodup →
        insert_records_sync table records =
          (InsertResult.ok records.length, table ++ records)) ∧
      ((insert_records_sync table records).2 = table ∨
        (insert_records_sync table records).2 = table ++ records) := by
  refine ⟨?_, ?_, ?_, ?_⟩
  · intro h
    subst h
    simp [insert_records_sync]
  · intro hdup
    have hne : records ≠ [] := by
      rintro rfl
      rcases hdup with ⟨r, hr, _⟩ | hnd
      · simp at hr
      · simp at hnd
    have hnotnodup : ¬ ((table ++ records).map recordKey).Nodup := by
      rw [List.map_append, List.nodup_append]
      rcases hdup with ⟨r, hr, s, hs, hk⟩ | hnd
      · rintro ⟨-, -, hdisj⟩
        exact hdisj (List.mem_map_of_mem recordKey hs)
          (by rw [hk]; exact List.mem_map_of_mem recordKey hr)
      · rintro ⟨-, hnd2, -⟩
        exact hnd hnd2
    rw [insert_records_sync, if_neg (by simp [hne]), if_neg hnotnodup]
  · intro hdisj hnodup
    by_cases hne : records = []
    · subst hne
      simp [insert_records_sync]
    · have hnodup2 : ((table ++ records).map recordKey).Nodup := by
        rw [List.map_append, List.nodup_append]
        refine ⟨htable, hnodup, ?_⟩
        intro a ha hb
        obtain ⟨s, hs, rfl⟩ := List.mem_map.mp ha
        obtain ⟨r, hr, hk⟩ := List.mem_map.mp hb
        exact hdisj r hr s hs hk.symm
      rw [insert_records_sync, if_neg (by simp [hne]), if_pos hnodup2]
  · rw [insert_records_sync]
    split
    · exact Or.inl rfl
    · split
      · exact Or.inr rfl
      · exact Or.inl rfl

/-- C7 (witness): a unique-key table, with a conflict-free one-record batch
appended atomically. -/
theorem C7_insert_batch_atomic_witness :
    (([⟨0, 60, 42, 60, 0, 0, 0, 0, 0, 0, 1, 1, 0⟩] :
          List SummaryRecord).map recordKey).Nodup ∧
      insert_records_sync [⟨0, 60, 42, 60, 0, 0, 0, 0, 0, 0, 1, 1, 0⟩]
          [⟨60, 120, 42, 120, 0, 0, 0, 0, 0, 0, 2, 2, 0⟩] =
        (InsertResult.ok 1,
          [⟨0, 60, 42, 60, 0, 0, 0, 0, 0, 0, 1, 1, 0⟩,
            ⟨60, 120, 42, 120, 0, 0, 0, 0, 0, 0, 2, 2, 0⟩]) := by
  have hn : (([⟨0, 60, 42, 60, 0, 0, 0, 0, 0, 0, 1, 1, 0⟩] :
      List SummaryRecord).map recordKey).Nodup := by
    simp [recordKey]
  have hdisj : ∀ r ∈ ([⟨60, 120, 42, 120, 0, 0, 0, 0, 0, 0, 2, 2, 0⟩] :
      List SummaryRecord), ∀ s ∈ ([⟨0, 60, 42, 60, 0, 0, 0, 0, 0, 0, 1, 1, 0⟩] :
      List SummaryRecord), recordKey s ≠ recordKey r := by
    intro r hr s hs
    simp only [List.mem_singleton] at hr hs
    subst hr
    subst hs
    simp only [recordKey]
    decide
  have hnd2 : (([⟨60, 120, 42, 120, 0, 0, 0, 0, 0, 0, 2, 2, 0⟩] :
      List SummaryRecord).map recordKey).Nodup := by
    simp [recordKey]
  have h2 := (C7_insert_batch_atomic [⟨0, 60, 42, 60, 0, 0, 0, 0, 0, 0, 1, 1, 0⟩]
    [⟨60, 120, 42, 120, 0, 0, 0, 0, 0, 0, 2, 2, 0⟩] hn).2.2.1 hdisj hnd2
  refine ⟨hn, ?_⟩
  simpa using h2

theorem foldl_min_le_seed (m : ℚ) (xs : List ℚ) : xs.foldl min m ≤ m := by
  induction xs generalizing m with
  | nil => simp
  | cons x xs ih =>
    exact le_trans (by simpa using ih (min m x)) (min_le_left m x)

theorem foldl_min_le_mem (m : ℚ) (xs : List ℚ) (x : ℚ) (hx : x ∈ xs) :
    xs.foldl min m ≤ x := by
  induction xs generalizing m with
  | nil => simp at hx
  | cons y ys ih =>
    rcases List.mem_cons.mp hx with h | h
    · subst h
      exact le_trans (foldl_min_le_seed _ ys) (min_le_right m x)
    · exact ih (min m y) h

theorem foldl_min_mem (m : ℚ) (xs : List ℚ) :
    xs.foldl min m = m ∨ xs.foldl min m ∈ xs := by
  induction xs generalizing m with
  | nil => exact Or.inl rfl
  | cons y ys ih =>
    rcases ih (min m y) with h | h
    · rcases min_choice m y with hc | hc
      · left
        rw [List.foldl_cons, h, hc]
      · right
        rw [List.foldl_cons, h, hc]
        exact List.mem_cons_self y ys
    · right
      rw [List.foldl_cons]
      exact List.mem_cons_of_mem y h

theorem foldl_max_mem (m : ℚ) (xs : List ℚ) :
    xs.foldl max m = m ∨ xs.foldl max m ∈ xs := by
  induction xs generalizing m with
  | nil => exact Or.inl rfl
  | cons y ys ih =>
    rcases ih (max m y) with h | h
    · rcases max_choice m y with hc | hc
      · left
        rw [List.foldl_cons, h, hc]
      · right
        rw [List.foldl_cons, h, hc]
        exact List.mem_cons_self y ys
    · right
      rw [List.foldl_cons]
      exact List.mem_cons_of_mem y h

theorem cumsumAux_getLast (acc : ℚ) (xs : List ℚ) (h : xs ≠ []) :
    (cumsumAux acc xs).getLast? = some (acc + xs.sum) := by
  induction xs generalizing acc with
  | nil => exact absurd rfl h
  | cons x xs ih =>
    cases xs with
    | nil => simp [cumsumAux]
    | cons y ys =>
      have h2 := ih (acc + x) (by simp)
      show ((acc + x) :: cumsumAux (acc + x) (y :: ys)).getLast? = _
      rw [show cumsumAux (acc + x) (y :: ys) =
        (acc + x + y) :: cumsumAux (acc + x + y) ys from rfl]
      rw [List.getLast?_cons_cons]
      rw [show (acc + x + y) :: cumsumAux (acc + x + y) ys =
        cumsumAux (acc + x) (y :: ys) from rfl]
      rw [h2]
      simp [add_assoc]

theorem cummaxAux_getLast (m : ℚ) (xs : List ℚ) (h : xs ≠ []) :
    (cummaxAux m xs).getLast? = some (xs.foldl max m) := by
  induction xs generalizing m with
  | nil => exact absurd rfl h
  | cons x xs ih =>
    cases xs with
    | nil => simp [cummaxAux]
    | cons y ys =>
      have h2 := ih (max m x) (by simp)
      show (max m x :: cummaxAux (max m x) (y :: ys)).getLast? = _
      rw [show cummaxAux (max m x) (y :: ys) =
        max (max m x) y :: cummaxAux (max (max m x) y) ys from rfl]
      rw [List.getLast?_cons_cons]
      rw [show max (max m x) y :: cummaxAux (max (max m x) y) ys =
        cummaxAux (max m x) (y :: ys) from rfl]
      rw [h2]
      simp [List.foldl_cons]

theorem cummax_getLast (x : ℚ) (xs : List ℚ) :
    (cummax (x :: xs)).getLast? = some (xs.foldl max x) := by
  cases xs with
  | nil => simp [cummax, cummaxAux]
  | cons y ys =>
    show (x :: cummaxAux x (y :: ys)).getLast? = _
    rw [show cummaxAux x (y :: ys) =
      max x y :: cummaxAux (max x y) ys from rfl]
    rw [List.getLast?_cons_cons]
    rw [show max x y :: cummaxAux (max x y) ys =
      cummaxAux x (y :: ys) from rfl]
    exact cummaxAux_getLast x (y :: ys) (by simp)

/-- The equity column computed by the three `cum_sum`s agrees with a single
running sum of `profit + swap + commission` seeded at the base equity. -/
theorem equityCol_eq_cumsumAux (base : ℚ) (ts : List Trade) :
    equityCol base ts = cumsumAux base (ts.map tradeDelta) := by
  apply List.ext_getElem
  · simp [equityCol_length, cumsumAux_length]
  · intro i h1 h2
    have hi : i < ts.length := by rwa [equityCol_length] at h1
    have hi2 : i < (ts.map tradeDelta).length := by simpa using hi
    have e1 := equityCol_getD base ts i hi
    have e2 := cumsumAux_getD base (ts.map tradeDelta) i hi2
    rw [List.getD_eq_getElem _ _ h1] at e1
    rw [List.getD_eq_getElem _ _ h2] at e2
    rw [e1, e2, ← List.map_take]

theorem round5_nonneg (x : ℚ) (hx : 0 ≤ x) : 0 ≤ round5 x := by
  unfold round5
  have h1 : (0 : ℤ) ≤ round (x * 100000) := by
    rw [round_eq]
    rw [show (0 : ℤ) = ⌊(0 : ℚ)⌋ from rfl]
    apply Int.floor_le_floor
    positivity
  have h2 : (0 : ℚ) ≤ (round (x * 100000) : ℤ) := by exact_mod_cast h1
  positivity

/-- C5 (amended). For every non-empty bucket: the persisted
`max_relative_drawdown` equals the absolute value of the minimum per-trade
relative drawdown of the bucket, rounded to 5 decimal places, times 100
(the claim omits the `.round(5)` step); it is non-negative; `last_equity`
is the final running equity of the bucket (base plus the total
profit+swap+commission); and `last_peak` is the final running peak of the
bucket, the maximum of all its equity values. -/
theorem C5_drawdown_aggregation_amended (base : ℚ) (ts : List Trade)
    (h : ts ≠ []) :
    (∃ m, m ∈ drawdownCol base ts ∧ (∀ x ∈ drawdownCol base ts, m ≤ x) ∧
        agg_max_relative_drawdown (drawdownCol base ts) =
          some (round5 |m| * 100) ∧
        0 ≤ round5 |m| * 100) ∧
      agg_last_equity (equityCol base ts) =
        some (base + (ts.map tradeDelta).sum) ∧
      (∃ M, M ∈ equityCol base ts ∧ (∀ x ∈ equityCol base ts, x ≤ M) ∧
        agg_last_peak (peakCol base ts) = some M) := by
  have hddne : drawdownCol base ts ≠ [] := by
    intro h2
    apply h
    have := drawdownCol_length base ts
    rw [h2] at this
    simpa using (List.length_eq_zero.mp this.symm)
  have heqne : equityCol base ts ≠ [] := by
    intro h2
    apply h
    have := equityCol_length base ts
    rw [h2] at this
    simpa using (List.length_eq_zero.mp this.symm)
  refine ⟨?_, ?_, ?_⟩
  · obtain ⟨d, ds, hd⟩ := List.exists_cons_of_ne_nil hddne
    refine ⟨ds.foldl min d, ?_, ?_, ?_, ?_⟩
    · rw [hd]
      rcases foldl_min_mem d ds with h2 | h2
      · rw [h2]
        exact List.mem_cons_self d ds
      · exact List.mem_cons_of_mem d h2
    · intro x hx
      rw [hd] at hx
      rcases List.mem_cons.mp hx with h2 | h2
      · rw [h2]
        exact foldl_min_le_seed d ds
      · exact foldl_min_le_mem d ds x h2
    · rw [hd]
      rfl
    · exact mul_nonneg (round5_nonneg _ (abs_nonneg _)) (by norm_num)
  · rw [agg_last_equity, equityCol_eq_cumsumAux]
    exact cumsumAux_getLast base (ts.map tradeDelta)
      (by simpa using h)
  · obtain ⟨e, es, he⟩ := List.exists_cons_of_ne_nil heqne
    refine ⟨es.foldl max e, ?_, ?_, ?_⟩
    · rw [he]
      rcases foldl_max_mem e es with h2 | h2
      · rw [h2]
        exact List.mem_cons_self e es
      · exact List.mem_cons_of_mem e h2
    · intro x hx
      rw [he] at hx
      rcases List.mem_cons.mp hx with h2 | h2
      · rw [h2]
        exact le_foldl_max e es
      · exact mem_le_foldl_max e es x h2
    · rw [agg_last_peak, peakCol, he]
      exact cummax_getLast e es

/-- C5 (counterexample). A fresh bucket of two trades, the second losing
0.4 from a peak of 100,000: the per-trade drawdown minimum is
`-0.000004`, whose absolute value times 100 is `0.0004`; but the code
rounds to 5 decimals before scaling (`.round(5) * 100`) and stores `0`,
not `0.0004` as the formula of the claim states. -/
theorem C5_rounding_counterexample :
    agg_max_relative_drawdown (drawdownCol INITIAL_EQUITY
        [⟨1, 0, 10, 0, 0, 0⟩, ⟨2, 0, 20, -2/5, 0, 0⟩]) = some 0 ∧
      spec_max_relative_drawdown (drawdownCol INITIAL_EQUITY
        [⟨1, 0, 10, 0, 0, 0⟩, ⟨2, 0, 20, -2/5, 0, 0⟩]) = some (1/2500) ∧
      agg_max_relative_drawdown (drawdownCol INITIAL_EQUITY
          [⟨1, 0, 10, 0, 0, 0⟩, ⟨2, 0, 20, -2/5, 0, 0⟩]) ≠
        spec_max_relative_drawdown (drawdownCol INITIAL_EQUITY
          [⟨1, 0, 10, 0, 0, 0⟩, ⟨2, 0, 20, -2/5, 0, 0⟩]) := by
  have hdd : drawdownCol INITIAL_EQUITY
      [⟨1, 0, 10, 0, 0, 0⟩, ⟨2, 0, 20, -2/5, 0, 0⟩] = [0, -1/250000] := by
    norm_num [drawdownCol, equityCol, peakCol, cumsum, cumsumAux, cummax,
      cummaxAux, INITIAL_EQUITY]
  rw [hdd]
  have hmin : (([-1/250000] : List ℚ).foldl min 0) = -1/250000 := by
    simp only [List.foldl_cons, List.foldl_nil]
    exact min_eq_right (by norm_num)
  have habs : |(-1/250000 : ℚ)| = 1/250000 := by
    rw [abs_of_nonpos (by norm_num)]
    norm_num
  refine ⟨?_, ?_, ?_⟩
  · show some (round5 |([-1/250000] : List ℚ).foldl min 0| * 100) = some 0
    rw [hmin, habs]
    norm_num [round5, round_eq]
  · show some (|([-1/250000] : List ℚ).foldl min 0| * 100) = some (1/2500)
    rw [hmin, habs]
    norm_num
  · show some (round5 |([-1/250000] : List ℚ).foldl min 0| * 100) ≠
      some (|([-1/250000] : List ℚ).foldl min 0| * 100)
    rw [hmin, habs]
    norm_num [round5, round_eq]

/-- C5 (witness): the amended theorem applied to a concrete one-trade
bucket. -/
theorem C5_drawdown_aggregation_amended_witness :
    (([⟨1, 0, 10, -100, 0, 0⟩] : List Trade) ≠ []) ∧
      agg_last_equity (equityCol 100000 [⟨1, 0, 10, -100, 0, 0⟩]) =
        some (100000 + (([⟨1, 0, 10, -100, 0, 0⟩] : List Trade).map
          tradeDelta).sum) :=
  ⟨by simp,
    (C5_drawdown_aggregation_amended 100000 [⟨1, 0, 10, -100, 0, 0⟩]
      (by simp)).2.1⟩

end Spec2Proof
